import Mathlib

/-!
# Verification of the problem3 extraction/aggregation pipeline

Shallow embedding of `src/problem3/processor/process.py` (Document Extractor /
Extraction Driver) and `src/problem3/analyzer/analyze.py` (Corpus Aggregator).

Strings are modelled as `List Char`; the specific regular expressions used by
the source are implemented directly as character-list scanners with the exact
leftmost, non-overlapping matching semantics of `re.sub` / `re.findall` /
`re.split` for those concrete patterns.  Python floats are modelled as exact
rationals (`ℚ`), with `round(x, n)` modelled as exact decimal rounding half to
even (`pyRound`).  Python's `\w`, `\s` and `re.IGNORECASE` are modelled over
the ASCII range, matching the ASCII inputs the pipeline handles.
-/

attribute [local semireducible] Rat.mul Rat.inv Rat.add Rat.sub

/-- Convert a string literal to the `List Char` representation used throughout. -/
def cs (s : String) : List Char := s.data

/-- Python `\s` (ASCII range): space, tab, newline, carriage return, form feed,
vertical tab. -/
def isSpaceB (c : Char) : Bool :=
  c = ' ' || c = '\t' || c = '\n' || c = '\r' || c = '\x0b' || c = '\x0c'

/-- Python `\w` (ASCII range): letters, digits, underscore. -/
def isWordCharB (c : Char) : Bool := c.isAlphanum || c = '_'

/-- ASCII lowercasing, modelling `str.lower` on the ASCII range. -/
def lowerCh (c : Char) : Char :=
  if 65 ≤ c.toNat ∧ c.toNat ≤ 90 then Char.ofNat (c.toNat + 32) else c

/-- Case-insensitive match of one pattern character `p` against a subject
character `c`, modelling `re.IGNORECASE` for ASCII: non-letter pattern
characters match exactly; letters match up to ASCII case. -/
def ciCharEq (p c : Char) : Bool := p = c || (p.isAlpha && lowerCh p = lowerCh c)

/-- Drop a case-insensitive occurrence of the pattern `p` from the front of
`s`, returning the rest; `none` when `s` does not start with `p`. -/
def stripPrefixCI : List Char → List Char → Option (List Char)
  | [], s => some s
  | _ :: _, [] => none
  | p :: ps, c :: rest => if ciCharEq p c then stripPrefixCI ps rest else none

/-- Skip `[^>]*>` : drop characters up to and including the first `'>'`;
`none` when there is no `'>'`. -/
def skipToGt : List Char → Option (List Char)
  | [] => none
  | c :: rest => if c = '>' then some rest else skipToGt rest

/-- Find the earliest case-insensitive occurrence of `pat` (the non-greedy
`.*?pat` step of the block-removal regex) and return the suffix after it. -/
def findCloseCI (pat : List Char) : List Char → Option (List Char)
  | [] => none
  | c :: rest =>
    match stripPrefixCI pat (c :: rest) with
    | some r => some r
    | none => findCloseCI pat rest

/-- Try to match `<TAG[^>]*>.*?</TAG>` (case-insensitive, dot matches newline)
at the start of `s`; on success return the suffix after the whole match. -/
def matchBlockAt (tag : List Char) (s : List Char) : Option (List Char) :=
  match stripPrefixCI ('<' :: tag) s with
  | none => none
  | some a =>
    match skipToGt a with
    | none => none
    | some b => findCloseCI ('<' :: '/' :: (tag ++ ['>'])) b

/-- Fuelled scanner for `re.sub(r"<TAG[^>]*>.*?</TAG>", "", s, DOTALL|IGNORECASE)`:
replace every leftmost non-overlapping block match by nothing. -/
def removeBlocksF (tag : List Char) : Nat → List Char → List Char
  | 0, s => s
  | _ + 1, [] => []
  | fuel + 1, c :: rest =>
    match matchBlockAt tag (c :: rest) with
    | some rem => removeBlocksF tag fuel rem
    | none => c :: removeBlocksF tag fuel rest

/-- `re.sub(r"<TAG[^>]*>.*?</TAG>", "", s, flags=re.DOTALL | re.IGNORECASE)`. -/
def removeBlocks (tag : List Char) (s : List Char) : List Char :=
  removeBlocksF tag s.length s

/-- Split at the first `'>'`: returns the characters before it and the suffix
after it; `none` when there is no `'>'`. -/
def splitAtGt : List Char → Option (List Char × List Char)
  | [] => none
  | c :: rest =>
    if c = '>' then some ([], rest)
    else (splitAtGt rest).map (fun p => (c :: p.1, p.2))

/-- Fuelled scanner for `re.sub(r"<[^>]+>", " ", s)`: each complete tag
(at least one non-`'>'` character between the brackets) becomes one space. -/
def tagSubF : Nat → List Char → List Char
  | 0, s => s
  | _ + 1, [] => []
  | fuel + 1, c :: rest =>
    if c = '<' then
      match splitAtGt rest with
      | some (inner, after) =>
        if inner.isEmpty then c :: tagSubF fuel rest
        else ' ' :: tagSubF fuel after
      | none => c :: tagSubF fuel rest
    else c :: tagSubF fuel rest

/-- `re.sub(r"<[^>]+>", " ", s)`. -/
def tagSub (s : List Char) : List Char := tagSubF s.length s

/-- Characters allowed in an attribute value by `[^\'"\s>]`. -/
def validAttrChar (c : Char) : Bool :=
  !(c = '\'' || c = '"' || isSpaceB c || c = '>')

/-- Try to match `PAT[\'"]?([^\'"\s>]+)` at the start of `s` (with the regex's
greedy-optional-quote backtracking); on success return the captured value and
the suffix after the full match. -/
def matchAttrAt (pat : List Char) (s : List Char) : Option (List Char × List Char) :=
  match stripPrefixCI pat s with
  | none => none
  | some after =>
    match after with
    | [] => none
    | q :: r =>
      if q = '\'' || q = '"' then
        let run := r.takeWhile validAttrChar
        if run.isEmpty then none else some (run, r.drop run.length)
      else
        let run := (q :: r).takeWhile validAttrChar
        if run.isEmpty then none else some (run, (q :: r).drop run.length)

/-- Fuelled scanner for `re.findall(r'PAT[\'"]?([^\'"\s>]+)', s, re.IGNORECASE)`. -/
def findAttrF (pat : List Char) : Nat → List Char → List (List Char)
  | 0, _ => []
  | _ + 1, [] => []
  | fuel + 1, c :: rest =>
    match matchAttrAt pat (c :: rest) with
    | some (cap, rem) => cap :: findAttrF pat fuel rem
    | none => findAttrF pat fuel rest

/-- `re.findall(r'PAT[\'"]?([^\'"\s>]+)', s, flags=re.IGNORECASE)`. -/
def findAttrVals (pat : List Char) (s : List Char) : List (List Char) :=
  findAttrF pat s.length s

/-- One-pass whitespace collapsing: `re.sub(r"\s+", " ", s)`.  The flag
records whether the previous character was part of a whitespace run. -/
def collapseWsAux : Bool → List Char → List Char
  | _, [] => []
  | prevWs, c :: rest =>
    if isSpaceB c then
      if prevWs then collapseWsAux true rest
      else ' ' :: collapseWsAux true rest
    else c :: collapseWsAux false rest

/-- `re.sub(r"\s+", " ", s)`. -/
def collapseWs (s : List Char) : List Char := collapseWsAux false s

/-- Python `str.strip()`: drop leading and trailing whitespace. -/
def pystrip (s : List Char) : List Char :=
  (((s.dropWhile isSpaceB).reverse).dropWhile isSpaceB).reverse

/-- The tag names appearing in the block-removal regexes. -/
def scriptTag : List Char := ['s', 'c', 'r', 'i', 'p', 't']

/-- The style tag name. -/
def styleTag : List Char := ['s', 't', 'y', 'l', 'e']

/-- `strip_html` from `src/problem3/processor/process.py`: remove script and
style blocks, extract `href=`/`src=` attribute values from the remaining
markup, replace remaining tags by spaces, collapse whitespace, and strip.
Returns `(text, links, images)`. -/
def strip_html (html : List Char) : List Char × List (List Char) × List (List Char) :=
  let h1 := removeBlocks scriptTag html
  let h2 := removeBlocks styleTag h1
  let links := findAttrVals (cs "href=") h2
  let images := findAttrVals (cs "src=") h2
  let text := pystrip (collapseWs (tagSub h2))
  (text, links, images)

/-- `re.findall(r"\b\w+\b", s)`: the maximal runs of word characters, in
order.  `acc` holds the current run, reversed. -/
def wGo (acc : List Char) : List Char → List (List Char)
  | [] => if acc.isEmpty then [] else [acc.reverse]
  | c :: rest =>
    if isWordCharB c then wGo (c :: acc) rest
    else if acc.isEmpty then wGo [] rest else acc.reverse :: wGo [] rest

/-- `re.findall(r"\b\w+\b", s)`. -/
def pyWords (s : List Char) : List (List Char) := wGo [] s

/-- One-pass scanner for `re.split(r"[.!?]+", s)`: runs of sentence
punctuation separate segments.  `inRun` records being inside such a run
(whose preceding segment has already been emitted). -/
def sGo (inRun : Bool) (acc : List Char) : List Char → List (List Char)
  | [] => [acc.reverse]
  | c :: rest =>
    if c = '.' || c = '!' || c = '?' then
      if inRun then sGo true [] rest else acc.reverse :: sGo true [] rest
    else sGo false (c :: acc) rest

/-- `re.split(r"[.!?]+", s)`. -/
def sentenceSegs (s : List Char) : List (List Char) := sGo false [] s

/-- `[s for s in re.split(r"[.!?]+", text) if s.strip()]` — the sentence rule
shared by `text_statistics` and the analyzer's `split_sentences`. -/
def split_sentences (text : List Char) : List (List Char) :=
  (sentenceSegs text).filter (fun p => !(pystrip p).isEmpty)

/-- One-pass scanner for `re.split(r"(?:\s{2,}|\n{2,})", s)`: a run of two or
more whitespace characters separates segments; a single whitespace character
belongs to its segment.  `pend` holds one not-yet-classified whitespace
character; `skip` records being inside a separating run (whose preceding
segment has already been emitted). -/
def pGo (pend : Option Char) (skip : Bool) (acc : List Char) : List Char → List (List Char)
  | [] =>
    if skip then [[]]
    else
      match pend with
      | some w => [(w :: acc).reverse]
      | none => [acc.reverse]
  | c :: rest =>
    if skip then
      if isSpaceB c then pGo none true [] rest
      else pGo none false [c] rest
    else
      match pend with
      | none =>
        if isSpaceB c then pGo (some c) false acc rest
        else pGo none false (c :: acc) rest
      | some w =>
        if isSpaceB c then acc.reverse :: pGo none true [] rest
        else pGo none false (c :: w :: acc) rest

/-- `re.split(r"(?:\s{2,}|\n{2,})", s)`. -/
def paraSegs (s : List Char) : List (List Char) := pGo none false [] s

/-- Kernel-computable floor of a rational (`num.fdiv den`). -/
def ratFloor (q : ℚ) : ℤ := q.num.fdiv q.den

/-- Python `round` to an integer: nearest, ties to even (exact-rational
model of float rounding). -/
def pyRoundInt (q : ℚ) : ℤ :=
  let f := ratFloor q
  let r := q - (f : ℚ)
  if r < 1 / 2 then f
  else if 1 / 2 < r then f + 1
  else if f % 2 = 0 then f else f + 1

/-- Python `round(q, nd)` in the exact-rational model. -/
def pyRound (nd : Nat) (q : ℚ) : ℚ := (pyRoundInt (q * 10 ^ nd) : ℚ) / 10 ^ nd

/-- The `statistics` object of an `ExtractedRecord`. -/
structure TextStats where
  word_count : Nat
  sentence_count : Nat
  paragraph_count : Nat
  avg_word_length : ℚ
  deriving DecidableEq, Repr

/-- `text_statistics` from `src/problem3/processor/process.py`. -/
def text_statistics (text : List Char) : TextStats :=
  let words := pyWords text
  let word_count := words.length
  let sentence_count := (split_sentences text).length
  let paragraphs := (paraSegs text).filter (fun p => !(pystrip p).isEmpty)
  let paragraph_count :=
    if paragraphs.isEmpty then max 1 (sentence_count / 3) else paragraphs.length
  let avg : ℚ :=
    if word_count = 0 then 0 else ((words.map List.length).sum : ℚ) / word_count
  { word_count, sentence_count, paragraph_count, avg_word_length := pyRound 3 avg }

/-- A persisted extraction record (`processed_at` timestamp omitted: it is the
only nondeterministic field and no claim concerns it). -/
structure ExtractedRecord where
  source_file : List Char
  text : List Char
  statistics : TextStats
  links : List (List Char)
  images : List (List Char)
  deriving DecidableEq, Repr

/-- `process_one_html` from `src/problem3/processor/process.py`, with the file
contents passed in place of the file read. -/
def process_one_html (name html : List Char) : ExtractedRecord :=
  let r := strip_html html
  { source_file := name, text := r.1, statistics := text_statistics r.1,
    links := r.2.1, images := r.2.2 }

/-! ### Extraction Driver (`main` of process.py) -/

/-- Helper for `os.path.splitext` on a reversed name: find the last dot and
return the reversed stem, provided some character before that dot is not a
dot (CPython's rule); `none` when the name has no extension. -/
def stemRev : List Char → Option (List Char)
  | [] => none
  | c :: rest =>
    if c = '.' then (if rest.any (fun d => d ≠ '.') then some rest else none)
    else stemRev rest

/-- `os.path.splitext(name)[0]`. -/
def pySplitextStem (s : List Char) : List Char :=
  match stemRev s.reverse with
  | some r => r.reverse
  | none => s

/-- Output record name derived from a source filename:
`os.path.splitext(basename)[0] + ".json"`. -/
def outName (name : List Char) : List Char := pySplitextStem name ++ cs ".json"

/-- Boolean lexicographic `≤` on character lists, modelling Python string
comparison (as produced by `sorted`). -/
def lexLeB : List Char → List Char → Bool
  | [], _ => true
  | _ :: _, [] => false
  | a :: as, b :: bs => if a < b then true else if a = b then lexLeB as bs else false

/-- The process-completion marker (timestamp omitted). -/
structure CompletionMarker where
  inputs_detected : Nat
  processed_success : Nat
  processed_failed : Nat
  outputs : List (List Char)
  deriving DecidableEq, Repr

/-- The per-document loop of the Extraction Driver: each input is a source
basename together with whether processing it succeeded (`process_one_html`
plus the record write raising no exception).  Returns
`(successes, failures, processed_files)`. -/
def driverFold : Nat × Nat × List (List Char) → List (List Char × Bool) →
    Nat × Nat × List (List Char)
  | acc, [] => acc
  | (succ, failed, outs), (name, ok) :: rest =>
    if ok then driverFold (succ + 1, failed, outs ++ [outName name]) rest
    else driverFold (succ, failed + 1, outs) rest

/-- `main` of process.py after the marker wait: attempt every enumerated raw
document in order and emit the completion marker. -/
def driverRun (files : List (List Char × Bool)) : CompletionMarker :=
  let r := driverFold (0, 0, []) files
  { inputs_detected := files.length, processed_success := r.1,
    processed_failed := r.2.1, outputs := r.2.2 }

/-! ### Corpus Aggregator (`analyze.py`) -/

/-- `tokenize_words` from analyze.py: lowercase the `\b\w+\b` tokens. -/
def tokenize_words (text : List Char) : List (List Char) :=
  (pyWords text).map (fun w => w.map lowerCh)

/-- `" ".join(ws)`. -/
def joinSpace (ws : List (List Char)) : List Char := (ws.intersperse (cs " ")).flatten

/-- `ngrams` from analyze.py: contiguous `n`-grams joined by single spaces
(`range(len(words) - n + 1)`, empty when there are fewer than `n` words). -/
def ngrams (words : List (List Char)) (n : Nat) : List (List Char) :=
  (List.range (words.length + 1 - n)).map (fun i => joinSpace ((words.drop i).take n))

/-- `jaccard_similarity` from analyze.py. -/
def jaccard_similarity (doc1_words doc2_words : List (List Char)) : ℚ :=
  let set1 := doc1_words.toFinset
  let set2 := doc2_words.toFinset
  let u := set1 ∪ set2
  if u = ∅ then 0 else ((set1 ∩ set2).card : ℚ) / (u.card : ℚ)

/-- The Jaccard formula as the spec words it (`|intersection| / |union|`, or
`0.0` if both distinct-token sets are empty), for the refinement statement. -/
def jaccardSpec (a b : List (List Char)) : ℚ :=
  if a.toFinset = ∅ ∧ b.toFinset = ∅ then 0
  else ((a.toFinset ∩ b.toFinset).card : ℚ) / ((a.toFinset ∪ b.toFinset).card : ℚ)

/-- JSON values a record's `"text"` field can hold in the model. -/
inductive TextVal
  | vnull
  | vstr (s : List Char)
  | vint (n : Int)
  | vbool (b : Bool)
  deriving DecidableEq, Repr

/-- Outcome of `json.load` on one record file: unparseable, or a parsed
object with an optional `"text"` field. -/
inductive ParseResult
  | corrupt
  | record (textField : Option TextVal)
  deriving DecidableEq, Repr

/-- `data.get("text", "") or ""` followed by handing the value to
`re.findall`: a missing, null or otherwise falsy value becomes the empty
string; a truthy non-string value raises an uncaught `TypeError` inside
`tokenize_words` (modelled as `Except.error`). -/
def getText : Option TextVal → Except Unit (List Char)
  | none => .ok []
  | some .vnull => .ok []
  | some (.vstr s) => .ok s
  | some (.vint n) => if n = 0 then .ok [] else .error ()
  | some (.vbool b) => if b then .error () else .ok []

/-- The accumulator state of the analyzer's loading loop. -/
structure AggState where
  docs : List (List Char × List (List Char))
  all_words : List (List Char)
  all_bigrams : List (List Char)
  all_trigrams : List (List Char)
  total_word_chars : Nat
  total_sentences : Nat
  deriving DecidableEq, Repr

/-- The initial (empty) accumulator state. -/
def initAgg : AggState :=
  { docs := [], all_words := [], all_bigrams := [], all_trigrams := [],
    total_word_chars := 0, total_sentences := 0 }

/-- One iteration of the analyzer's per-record accumulation (analyze.py
lines 74–88) for a record whose text was resolved to `text`. -/
def accumulate (st : AggState) (name text : List Char) : AggState :=
  let words := tokenize_words text
  { docs := st.docs ++ [(name, words)]
    all_words := st.all_words ++ words
    all_bigrams := st.all_bigrams ++ ngrams words 2
    all_trigrams := st.all_trigrams ++ ngrams words 3
    total_word_chars := st.total_word_chars + (words.map List.length).sum
    total_sentences := st.total_sentences + (split_sentences text).length }

/-- The analyzer's loading loop over the enumerated record files: a corrupt
file is skipped; a parsed record is accumulated; a truthy non-string `"text"`
aborts the run with an uncaught error. -/
def loadLoop (st : AggState) : List (List Char × ParseResult) → Except Unit AggState
  | [] => .ok st
  | (_, .corrupt) :: rest => loadLoop st rest
  | (name, .record tf) :: rest =>
    match getText tf with
    | .error e => .error e
    | .ok text => loadLoop (accumulate st name text) rest

/-- The distinct elements of `l` in order of first occurrence — the key order
of a Python `Counter`/`dict` built by counting `l` left to right. -/
def firstSeenGo (seen : List (List Char)) : List (List Char) → List (List Char)
  | [] => []
  | a :: rest =>
    if a ∈ seen then firstSeenGo seen rest else a :: firstSeenGo (a :: seen) rest

/-- Distinct elements in first-seen order. -/
def firstSeen (l : List (List Char)) : List (List Char) := firstSeenGo [] l

/-- `Counter(l).items()`: distinct elements with their counts, in first-seen
(insertion) order. -/
def countsFirstSeen (l : List (List Char)) : List (List Char × Nat) :=
  (firstSeen l).map (fun w => (w, l.count w))

/-- Stable descending insertion by count: the new element, which precedes the
list elements in first-seen order, goes before every element of equal or
smaller count. -/
def insertDesc (x : List Char × Nat) : List (List Char × Nat) → List (List Char × Nat)
  | [] => [x]
  | y :: rest => if y.2 ≤ x.2 then x :: y :: rest else y :: insertDesc x rest

/-- Stable sort by count descending — the ordering contract of
`Counter.most_common` (count descending, ties in first-seen order). -/
def sortDesc (l : List (List Char × Nat)) : List (List Char × Nat) :=
  l.foldr insertDesc []

/-- `Counter(l).most_common(n)`. -/
def mostCommon (n : Nat) (l : List (List Char)) : List (List Char × Nat) :=
  (sortDesc (countsFirstSeen l)).take n

/-- `itertools.combinations(l, 2)` in order. -/
def combos2 : List α → List (α × α)
  | [] => []
  | x :: rest => rest.map (fun y => (x, y)) ++ combos2 rest

/-- An entry of `top_100_words`. -/
structure WordEntry where
  word : List Char
  count : Nat
  frequency : ℚ
  deriving DecidableEq, Repr

/-- An entry of `document_similarity`. -/
structure SimEntry where
  doc1 : List Char
  doc2 : List Char
  similarity : ℚ
  deriving DecidableEq, Repr

/-- An entry of `top_bigrams` / `top_trigrams`. -/
structure GramEntry where
  gram : List Char
  count : Nat
  deriving DecidableEq, Repr

/-- The `readability` object. -/
structure Readability where
  avg_sentence_length : ℚ
  avg_word_length : ℚ
  complexity_score : ℚ
  deriving DecidableEq, Repr

/-- The final report (timestamp omitted).  `top_trigrams` is an `Option`
because the empty-corpus branch of analyze.py omits that key entirely. -/
structure CorpusReport where
  documents_processed : Nat
  total_words : Nat
  unique_words : Nat
  top_100_words : List WordEntry
  document_similarity : List SimEntry
  top_bigrams : List GramEntry
  top_trigrams : Option (List GramEntry)
  readability : Readability
  deriving DecidableEq, Repr

/-- Report construction from the accumulated state (analyze.py lines 90–159),
including the empty-corpus branch. -/
def buildReport (st : AggState) : CorpusReport :=
  let total_words := st.all_words.length
  if total_words = 0 then
    { documents_processed := st.docs.length, total_words := 0, unique_words := 0,
      top_100_words := [], document_similarity := [], top_bigrams := [],
      top_trigrams := none,
      readability := { avg_sentence_length := 0, avg_word_length := 0, complexity_score := 0 } }
  else
    let top_100_words := (mostCommon 100 st.all_words).map
      (fun p => { word := p.1, count := p.2,
                  frequency := pyRound 6 ((p.2 : ℚ) / (total_words : ℚ)) : WordEntry })
    let similarities := (combos2 st.docs).map
      (fun p => { doc1 := p.1.1, doc2 := p.2.1,
                  similarity := pyRound 6 (jaccard_similarity p.1.2 p.2.2) : SimEntry })
    let top_bigrams := (mostCommon 50 st.all_bigrams).map
      (fun p => { gram := p.1, count := p.2 : GramEntry })
    let top_trigrams := (mostCommon 50 st.all_trigrams).map
      (fun p => { gram := p.1, count := p.2 : GramEntry })
    let avg_sentence_length : ℚ :=
      if st.total_sentences ≠ 0 then (total_words : ℚ) / (st.total_sentences : ℚ)
      else (total_words : ℚ)
    let avg_word_length : ℚ := (st.total_word_chars : ℚ) / (total_words : ℚ)
    { documents_processed := st.docs.length, total_words,
      unique_words := (firstSeen st.all_words).length, top_100_words,
      document_similarity := similarities, top_bigrams,
      top_trigrams := some top_trigrams,
      readability :=
        { avg_sentence_length := pyRound 6 avg_sentence_length
          avg_word_length := pyRound 6 avg_word_length
          complexity_score := pyRound 6 (avg_sentence_length * avg_word_length) } }

/-- `main` of analyze.py after the marker wait, over the enumerated record
files: load (skipping corrupt files), then build the report; `Except.error`
models the run aborting on an uncaught error. -/
def analyzerRun (files : List (List Char × ParseResult)) : Except Unit CorpusReport :=
  (loadLoop initAgg files).map buildReport

/-- Whether a parse outcome is a successfully parsed record. -/
def isParsed : ParseResult → Bool
  | .corrupt => false
  | .record _ => true

/-- The `"text"` values Python treats as falsy in `data.get("text", "") or ""`
(missing, `None`, `False`, `0`, `""`): all are silently replaced by the empty
string. -/
def isFalsyText : Option TextVal → Bool
  | none => true
  | some .vnull => true
  | some (.vstr s) => s.isEmpty
  | some (.vint n) => n = 0
  | some (.vbool b) => !b

/-- The `"text"` values that are truthy but not strings: they survive the
`or ""` and then crash `re.findall` with an uncaught `TypeError`. -/
def isCrashText : Option TextVal → Bool
  | some (.vint n) => decide (n ≠ 0)
  | some (.vbool b) => b
  | _ => false

instance exceptDecEq {ε α : Type} [DecidableEq ε] [DecidableEq α] :
    DecidableEq (Except ε α) := fun a b =>
  match a, b with
  | .error e, .error f =>
    match decEq e f with
    | isTrue h => isTrue (by rw [h])
    | isFalse h => isFalse (fun hh => h (by cases hh; rfl))
  | .error _, .ok _ => isFalse (fun hh => Except.noConfusion hh)
  | .ok _, .error _ => isFalse (fun hh => Except.noConfusion hh)
  | .ok a, .ok b =>
    match decEq a b with
    | isTrue h => isTrue (by rw [h])
    | isFalse h => isFalse (fun hh => h (by cases hh; rfl))

example : removeBlocks scriptTag (cs "a<script>x y</script>b") = cs "ab" := by decide
example : removeBlocks scriptTag (cs "a<SCRIPT t=1>x</ScRiPt>b") = cs "ab" := by decide
example : removeBlocks scriptTag (cs "<script>alert</p> ok") = cs "<script>alert</p> ok" := by
  decide
example : tagSub (cs "a<p>b<>c") = cs "a b<>c" := by decide
example : (strip_html (cs "<p>Hello <b>world</b></p>")).1 = cs "Hello world" := by decide
example : (strip_html (cs "<a href=\"x.html\">t</a><img src=pic.png>")).2.1 = [cs "x.html"] := by
  decide
example : (strip_html (cs "<script>hidden</p> ok")).1 = cs "hidden ok" := by decide
example : text_statistics (cs "a. ;. ;.") =
    { word_count := 1, sentence_count := 3, paragraph_count := 1, avg_word_length := 1 } := by
  decide
example : mostCommon 2 (tokenize_words (cs "b b a a c")) = [(cs "b", 2), (cs "a", 2)] := by decide
example : pyRound 6 (1 / 3) = 333333 / 1000000 := by decide
example : pyRoundInt (5 / 2) = 2 ∧ pyRoundInt (3 / 2) = 2 := by decide
example : outName (cs "page_1.html") = cs "page_1.json" := by decide
example : pySplitextStem (cs "..b") = cs "..b" ∧ pySplitextStem (cs "a.b.c") = cs "a.b" := by
  decide
example : driverRun [(cs "a.html", true), (cs "b.html", false), (cs "c.html", true)] =
    { inputs_detected := 3, processed_success := 2, processed_failed := 1,
      outputs := [cs "a.json", cs "c.json"] } := by decide
example :
    analyzerRun [(cs "a.json", .record (some (.vstr (cs "Hello world. Hello again!")))),
                 (cs "b.json", .record (some (.vstr (cs "Hello world again."))))]
      = .ok
      { documents_processed := 2, total_words := 7, unique_words := 3,
        top_100_words := [
          { word := cs "hello", count := 3, frequency := 428571 / 1000000 },
          { word := cs "world", count := 2, frequency := 285714 / 1000000 },
          { word := cs "again", count := 2, frequency := 285714 / 1000000 }],
        document_similarity := [{ doc1 := cs "a.json", doc2 := cs "b.json", similarity := 1 }],
        top_bigrams := [
          { gram := cs "hello world", count := 2 },
          { gram := cs "world hello", count := 1 },
          { gram := cs "hello again", count := 1 },
          { gram := cs "world again", count := 1 }],
        top_trigrams := some [
          { gram := cs "hello world hello", count := 1 },
          { gram := cs "world hello again", count := 1 },
          { gram := cs "hello world again", count := 1 }],
        readability :=
          { avg_sentence_length := 2333333 / 1000000, avg_word_length := 5,
            complexity_score := 11666667 / 1000000 } } := by decide

/-- The exact opening form `<TAG>` (no attributes), used to state which block
contents the removal step elides. -/
def openTag (tag : List Char) : List Char := '<' :: tag ++ ['>']

/-- The closing form `</TAG>`. -/
def closeTag (tag : List Char) : List Char := '<' :: '/' :: tag ++ ['>']

/-- Two adjacent characters are not both whitespace — the shape invariant of
whitespace-collapsed text, under which the paragraph split on runs of 2+
whitespace can never fire. -/
def noWsRun (a b : Char) : Prop := ¬(isSpaceB a = true ∧ isSpaceB b = true)

/-! ## Helper lemmas -/

theorem jaccard_eq_spec (a b : List (List Char)) :
    jaccard_similarity a b = jaccardSpec a b := by
  simp only [jaccard_similarity, jaccardSpec, Finset.union_eq_empty]

theorem buildReport_documents (st : AggState) :
    (buildReport st).documents_processed = st.docs.length := by
  by_cases hz : st.all_words.length = 0 <;> simp [buildReport, hz]

theorem combos2_length {α : Type} (l : List α) : (combos2 l).length = l.length.choose 2 := by
  induction l with
  | nil => rfl
  | cons x rest ih =>
    simp [combos2, ih, Nat.choose_succ_succ, Nat.choose_one_right, Nat.add_comm]

theorem loadLoop_filter (st : AggState) (files : List (List Char × ParseResult)) :
    loadLoop st files = loadLoop st (files.filter (fun f => isParsed f.2)) := by
  induction files generalizing st with
  | nil => rfl
  | cons f rest ih =>
    match f with
    | (name, .corrupt) => simpa [loadLoop, isParsed] using ih st
    | (name, .record tf) =>
      simp only [loadLoop, isParsed, List.filter_cons_of_pos]
      cases getText tf with
      | error e => rfl
      | ok text => exact ih (accumulate st name text)

theorem loadLoop_docs_length (files : List (List Char × ParseResult)) (st res : AggState)
    (h : loadLoop st files = .ok res) :
    res.docs.length = st.docs.length + (files.filter (fun f => isParsed f.2)).length := by
  induction files generalizing st with
  | nil =>
    cases h
    simp
  | cons f rest ih =>
    match f with
    | (name, .corrupt) =>
      simpa [isParsed] using ih st h
    | (name, .record tf) =>
      rw [loadLoop] at h
      cases hg : getText tf with
      | error e => rw [hg] at h; cases h
      | ok text =>
        rw [hg] at h
        have := ih (accumulate st name text) h
        simp only [accumulate, List.length_append, List.length_cons, List.length_nil] at this
        simp [isParsed, this]
        omega

/-! ## C5: properties of `jaccard_similarity` -/

/-- **C5** (counterexample): the claim asserts `jaccard_similarity(d, d) = 1.0`
for every token list `d`, but for the empty token list both distinct-token
sets are empty, the union is empty, and the code returns `0.0`, not `1.0`. -/
theorem c5_counterexample :
    ¬ jaccard_similarity ([] : List (List Char)) [] = 1 := by decide

/-- **C5** (amended): `jaccard_similarity` is symmetric and bounded in
`[0, 1]`, and the similarity of a document with itself equals `1.0` whenever
the document has at least one token; for an empty token list it is `0.0`
(shown separately in `c5_counterexample`). -/
theorem c5_jaccard_amended (a b d : List (List Char)) (hd : d ≠ []) :
    jaccard_similarity a b = jaccard_similarity b a ∧
    0 ≤ jaccard_similarity a b ∧ jaccard_similarity a b ≤ 1 ∧
    jaccard_similarity d d = 1 := by
  refine ⟨?_, ?_, ?_, ?_⟩
  · simp only [jaccard_similarity]
    rw [Finset.union_comm, Finset.inter_comm]
  · simp only [jaccard_similarity]
    split
    · exact le_refl 0
    · positivity
  · simp only [jaccard_similarity]
    split
    · exact zero_le_one
    · apply div_le_one_of_le₀
      · exact_mod_cast Finset.card_le_card Finset.inter_subset_union
      · positivity
  · have hne : d.toFinset ≠ ∅ := by
      simpa [List.toFinset_eq_empty_iff] using hd
    have hcard : (d.toFinset.card : ℚ) ≠ 0 := by
      exact_mod_cast Finset.card_ne_zero.mpr (Finset.nonempty_iff_ne_empty.mpr hne)
    simp only [jaccard_similarity, Finset.union_self, Finset.inter_self]
    rw [if_neg hne]
    exact div_self hcard

/-- **C5** (witness): the amended statement at concrete inputs. -/
theorem c5_jaccard_amended_witness :
    jaccard_similarity [cs "a"] [cs "b"] = jaccard_similarity [cs "b"] [cs "a"] ∧
    0 ≤ jaccard_similarity [cs "a"] [cs "b"] ∧ jaccard_similarity [cs "a"] [cs "b"] ≤ 1 ∧
    jaccard_similarity [cs "a"] [cs "a"] = 1 :=
  c5_jaccard_amended [cs "a"] [cs "b"] [cs "a"] (by decide)

/-! ## C4: pairwise document similarity -/

/-- **C4**: for a non-empty corpus the `document_similarity` list has exactly
`C(n, 2)` entries, one per unordered pair of distinct loaded documents in
order, and each entry's `similarity` is the Jaccard ratio of the two
documents' distinct-token sets (`0.0` when both are empty), rounded to 6
decimals (`jaccardSpec` states the ratio exactly as the claim words it). -/
theorem c4_document_similarity (st : AggState) (h : st.all_words ≠ []) :
    (buildReport st).document_similarity.length = st.docs.length.choose 2 ∧
    (buildReport st).document_similarity = (combos2 st.docs).map
      (fun p => { doc1 := p.1.1, doc2 := p.2.1,
                  similarity := pyRound 6 (jaccardSpec p.1.2 p.2.2) : SimEntry }) := by
  have hz : ¬ st.all_words.length = 0 := by simpa [List.length_eq_zero] using h
  constructor
  · simp [buildReport, hz, combos2_length]
  · simp [buildReport, hz, jaccard_eq_spec]

/-- **C4** (witness): the statement at a concrete two-document corpus. -/
theorem c4_document_similarity_witness :
    (buildReport (accumulate (accumulate initAgg (cs "a.json") (cs "x y"))
        (cs "b.json") (cs "y z"))).document_similarity.length
      = (accumulate (accumulate initAgg (cs "a.json") (cs "x y"))
        (cs "b.json") (cs "y z")).docs.length.choose 2 ∧
    (buildReport (accumulate (accumulate initAgg (cs "a.json") (cs "x y"))
        (cs "b.json") (cs "y z"))).document_similarity
      = (combos2 (accumulate (accumulate initAgg (cs "a.json") (cs "x y"))
          (cs "b.json") (cs "y z")).docs).map
        (fun p => { doc1 := p.1.1, doc2 := p.2.1,
                    similarity := pyRound 6 (jaccardSpec p.1.2 p.2.2) : SimEntry }) :=
  c4_document_similarity _ (by decide)

/-! ## C6: corrupt records are skipped -/

/-- **C6**: a record file that fails to parse is skipped without aborting the
run — the load loop behaves exactly as if the corrupt files were absent — and
`documents_processed` equals the number of records successfully parsed. -/
theorem c6_corrupt_records_skipped (files : List (List Char × ParseResult)) (res : AggState)
    (h : loadLoop initAgg files = .ok res) :
    loadLoop initAgg files = loadLoop initAgg (files.filter (fun f => isParsed f.2)) ∧
    res.docs.length = (files.filter (fun f => isParsed f.2)).length ∧
    (buildReport res).documents_processed = (files.filter (fun f => isParsed f.2)).length := by
  have hl := loadLoop_docs_length files initAgg res h
  simp only [initAgg, List.length_nil, Nat.zero_add] at hl
  exact ⟨loadLoop_filter initAgg files, hl, by rw [buildReport_documents, hl]⟩

/-- **C6** (witness): one corrupt file among two; the run succeeds and counts
only the parsed record. -/
theorem c6_corrupt_records_skipped_witness :
    loadLoop initAgg
        [(cs "a.json", ParseResult.corrupt),
         (cs "b.json", ParseResult.record (some (TextVal.vstr (cs "hi"))))]
      = loadLoop initAgg
        ([(cs "a.json", ParseResult.corrupt),
          (cs "b.json", ParseResult.record (some (TextVal.vstr (cs "hi"))))].filter
          (fun f => isParsed f.2)) ∧
    (accumulate initAgg (cs "b.json") (cs "hi")).docs.length
      = ([(cs "a.json", ParseResult.corrupt),
          (cs "b.json", ParseResult.record (some (TextVal.vstr (cs "hi"))))].filter
          (fun f => isParsed f.2)).length ∧
    (buildReport (accumulate initAgg (cs "b.json") (cs "hi"))).documents_processed
      = ([(cs "a.json", ParseResult.corrupt),
          (cs "b.json", ParseResult.record (some (TextVal.vstr (cs "hi"))))].filter
          (fun f => isParsed f.2)).length :=
  c6_corrupt_records_skipped _ _ (by decide)

/-! ## C10: falsy and non-string `"text"` values -/

theorem getText_falsy (tf : Option TextVal) (h : isFalsyText tf = true) :
    getText tf = .ok [] := by
  match tf with
  | none => rfl
  | some .vnull => rfl
  | some (.vstr s) =>
    simp only [isFalsyText, List.isEmpty_iff] at h
    simp [getText, h]
  | some (.vint n) =>
    simp only [isFalsyText, decide_eq_true_eq] at h
    simp [getText, h]
  | some (.vbool b) =>
    simp only [isFalsyText, Bool.not_eq_true'] at h
    simp [getText, h]

theorem getText_crash (tf : Option TextVal) (h : isCrashText tf = true) :
    getText tf = .error () := by
  match tf with
  | none => simp [isCrashText] at h
  | some .vnull => simp [isCrashText] at h
  | some (.vstr s) => simp [isCrashText] at h
  | some (.vint n) =>
    simp only [isCrashText, decide_eq_true_eq] at h
    simp [getText, h]
  | some (.vbool b) =>
    simp only [isCrashText] at h
    simp [getText, h]

theorem accumulate_empty (st : AggState) (name : List Char) :
    accumulate st name [] = { st with docs := st.docs ++ [(name, [])] } := by
  cases st
  simp [accumulate, tokenize_words, pyWords, wGo, ngrams, split_sentences, sentenceSegs,
    sGo, pystrip]

/-- **C10** (counterexample): the claim says a record whose `"text"` is not a
string-producing value is treated as the empty string and still counted; but a
record with `"text": 1` (truthy, non-string) survives `or ""` and reaches
`re.findall`, which raises an uncaught `TypeError` outside the `try` block:
the whole run aborts and no report is produced at all. -/
theorem c10_counterexample :
    analyzerRun [(cs "a.json", ParseResult.record (some (TextVal.vint 1)))]
      = .error () := by decide

/-- **C10** (amended): a record whose `"text"` field is missing, null, or any
other falsy value (`False`, `0`, `""`) is treated as empty text — the record
is still appended to `docs` (so it is counted in `documents_processed` and
participates in the pairwise loop with an empty token set) and contributes no
tokens, sentences or n-grams; a record whose `"text"` is a truthy non-string
value aborts the whole run with an uncaught error. -/
theorem c10_falsy_text_amended (st : AggState) (name : List Char) (tf : Option TextVal)
    (rest : List (List Char × ParseResult)) :
    (isFalsyText tf = true →
      loadLoop st ((name, .record tf) :: rest)
        = loadLoop { st with docs := st.docs ++ [(name, [])] } rest) ∧
    (isCrashText tf = true →
      loadLoop st ((name, .record tf) :: rest) = .error ()) := by
  constructor
  · intro h
    simp only [loadLoop, getText_falsy tf h, accumulate_empty]
  · intro h
    simp only [loadLoop, getText_crash tf h]

/-- **C10** (witness): the amended statement at concrete inputs — a null
`"text"` is kept as an empty document; a `true` `"text"` aborts the run. -/
theorem c10_falsy_text_amended_witness :
    loadLoop initAgg [(cs "a.json", ParseResult.record (some TextVal.vnull))]
      = loadLoop { initAgg with docs := initAgg.docs ++ [(cs "a.json", [])] } [] ∧
    loadLoop initAgg [(cs "b.json", ParseResult.record (some (TextVal.vbool true)))]
      = .error () :=
  ⟨(c10_falsy_text_amended initAgg (cs "a.json") (some TextVal.vnull) []).1 (by decide),
   (c10_falsy_text_amended initAgg (cs "b.json") (some (TextVal.vbool true)) []).2 (by decide)⟩

/-! ## C1: the empty-corpus branch -/

/-- **C1** (counterexample): a corpus holding one parseable record with empty
text has corpus-wide token count zero, yet the emitted report has
`documents_processed = 1` (not `0`), and its `top_trigrams` key is absent
(`none`), not present-and-empty — the empty-corpus literal in analyze.py
lines 95–108 omits the key.  Both contradict the claim. -/
theorem c1_counterexample :
    analyzerRun [(cs "page_1.json", ParseResult.record (some (TextVal.vstr [])))]
      = .ok { documents_processed := 1, total_words := 0, unique_words := 0,
              top_100_words := [], document_similarity := [], top_bigrams := [],
              top_trigrams := none,
              readability := { avg_sentence_length := 0, avg_word_length := 0,
                               complexity_score := 0 } } ∧
    ¬ (1 = 0) ∧ (none : Option (List GramEntry)) ≠ some [] := by decide

/-- **C1** (amended): when the corpus-wide token count is zero after loading,
the analyzer emits a report whose `documents_processed` equals the number of
records loaded (not necessarily zero), whose `total_words` and `unique_words`
are zero, whose `top_100_words`, `document_similarity` and `top_bigrams` are
present and empty, whose `top_trigrams` key is absent, and whose readability
fields are all zero — skipping the frequency, similarity and n-gram steps. -/
theorem c1_empty_corpus_amended (files : List (List Char × ParseResult)) (st : AggState)
    (h : loadLoop initAgg files = .ok st) (hz : st.all_words.length = 0) :
    analyzerRun files
      = .ok { documents_processed := st.docs.length, total_words := 0, unique_words := 0,
              top_100_words := [], document_similarity := [], top_bigrams := [],
              top_trigrams := none,
              readability := { avg_sentence_length := 0, avg_word_length := 0,
                               complexity_score := 0 } } := by
  simp [analyzerRun, h, Except.map, buildReport, hz]

/-- **C1** (witness): the amended statement at the one-empty-record corpus. -/
theorem c1_empty_corpus_amended_witness :
    analyzerRun [(cs "page_1.json", ParseResult.record (some (TextVal.vstr [])))]
      = .ok { documents_processed :=
                (accumulate initAgg (cs "page_1.json") []).docs.length,
              total_words := 0, unique_words := 0,
              top_100_words := [], document_similarity := [], top_bigrams := [],
              top_trigrams := none,
              readability := { avg_sentence_length := 0, avg_word_length := 0,
                               complexity_score := 0 } } :=
  c1_empty_corpus_amended _ (accumulate initAgg (cs "page_1.json") [])
    (by decide) (by decide)

/-! ## C7: readability metrics -/

/-- **C7** (counterexample): a one-record corpus with text `"a. ;. ;."` has
`total_words = 1` and `total_sentences = 3`, so
`total_words / total_sentences = 1/3`; but the report's
`avg_sentence_length` is `round(1/3, 6) = 0.333333 ≠ 1/3` — the claim omits
the 6-decimal rounding that analyze.py applies to the stored
`avg_sentence_length` and `avg_word_length` fields. -/
theorem c7_counterexample :
    analyzerRun [(cs "a.json", ParseResult.record (some (TextVal.vstr (cs "a. ;. ;."))))]
      = .ok { documents_processed := 1, total_words := 1, unique_words := 1,
              top_100_words := [{ word := cs "a", count := 1, frequency := 1 }],
              document_similarity := [], top_bigrams := [], top_trigrams := some [],
              readability := { avg_sentence_length := 333333 / 1000000,
                               avg_word_length := 1,
                               complexity_score := 333333 / 1000000 } } ∧
    (333333 / 1000000 : ℚ) ≠ 1 / 3 := by decide

/-- **C7** (amended): for a non-empty corpus the report's readability fields
are: `avg_sentence_length = round(total_words / total_sentences, 6)` when
`total_sentences > 0` and `round(total_words, 6)` otherwise;
`avg_word_length = round(total_word_chars / total_words, 6)`; and
`complexity_score = round(asl * awl, 6)` computed from the *unrounded*
quotients. -/
theorem c7_readability_amended (st : AggState) (h : st.all_words ≠ []) :
    (buildReport st).readability.avg_sentence_length
        = pyRound 6 (if st.total_sentences ≠ 0
            then (st.all_words.length : ℚ) / (st.total_sentences : ℚ)
            else (st.all_words.length : ℚ)) ∧
    (buildReport st).readability.avg_word_length
        = pyRound 6 ((st.total_word_chars : ℚ) / (st.all_words.length : ℚ)) ∧
    (buildReport st).readability.complexity_score
        = pyRound 6 ((if st.total_sentences ≠ 0
            then (st.all_words.length : ℚ) / (st.total_sentences : ℚ)
            else (st.all_words.length : ℚ))
          * ((st.total_word_chars : ℚ) / (st.all_words.length : ℚ))) := by
  have hz : ¬ st.all_words.length = 0 := by simpa [List.length_eq_zero] using h
  refine ⟨?_, ?_, ?_⟩ <;> by_cases hs : st.total_sentences = 0 <;> simp [buildReport, hz, hs]

/-- **C7** (witness): the amended statement at a concrete corpus. -/
theorem c7_readability_amended_witness :
    (buildReport (accumulate initAgg (cs "a.json") (cs "hi there."))).readability.avg_sentence_length
        = pyRound 6 (if (accumulate initAgg (cs "a.json") (cs "hi there.")).total_sentences ≠ 0
            then ((accumulate initAgg (cs "a.json") (cs "hi there.")).all_words.length : ℚ)
              / ((accumulate initAgg (cs "a.json") (cs "hi there.")).total_sentences : ℚ)
            else ((accumulate initAgg (cs "a.json") (cs "hi there.")).all_words.length : ℚ)) ∧
    (buildReport (accumulate initAgg (cs "a.json") (cs "hi there."))).readability.avg_word_length
        = pyRound 6 (((accumulate initAgg (cs "a.json") (cs "hi there.")).total_word_chars : ℚ)
            / ((accumulate initAgg (cs "a.json") (cs "hi there.")).all_words.length : ℚ)) ∧
    (buildReport (accumulate initAgg (cs "a.json") (cs "hi there."))).readability.complexity_score
        = pyRound 6 ((if (accumulate initAgg (cs "a.json") (cs "hi there.")).total_sentences ≠ 0
            then ((accumulate initAgg (cs "a.json") (cs "hi there.")).all_words.length : ℚ)
              / ((accumulate initAgg (cs "a.json") (cs "hi there.")).total_sentences : ℚ)
            else ((accumulate initAgg (cs "a.json") (cs "hi there.")).all_words.length : ℚ))
          * (((accumulate initAgg (cs "a.json") (cs "hi there.")).total_word_chars : ℚ)
            / ((accumulate initAgg (cs "a.json") (cs "hi there.")).all_words.length : ℚ))) :=
  c7_readability_amended _ (by decide)

/-! ## C3: the top-100 word ranking -/

theorem mem_insertDesc {x y : List Char × Nat} {l : List (List Char × Nat)} :
    y ∈ insertDesc x l ↔ y = x ∨ y ∈ l := by
  induction l with
  | nil => simp [insertDesc]
  | cons z rest ih =>
    by_cases hz : z.2 ≤ x.2 <;> simp [insertDesc, hz, ih] <;> try tauto

theorem pairwise_insertDesc {x : List Char × Nat} {l : List (List Char × Nat)}
    (h : List.Pairwise (fun a b => b.2 ≤ a.2) l) :
    List.Pairwise (fun a b => b.2 ≤ a.2) (insertDesc x l) := by
  induction l with
  | nil => simp [insertDesc]
  | cons z rest ih =>
    rcases List.pairwise_cons.mp h with ⟨hzr, hrest⟩
    by_cases hz : z.2 ≤ x.2
    · rw [insertDesc, if_pos hz]
      refine List.pairwise_cons.mpr ⟨?_, h⟩
      intro y hy
      rcases List.mem_cons.mp hy with rfl | hy
      · exact hz
      · exact le_trans (hzr y hy) hz
    · rw [insertDesc, if_neg hz]
      refine List.pairwise_cons.mpr ⟨?_, ih hrest⟩
      intro y hy
      rcases mem_insertDesc.mp hy with rfl | hy
      · omega
      · exact hzr y hy

theorem pairwise_sortDesc (l : List (List Char × Nat)) :
    List.Pairwise (fun a b => b.2 ≤ a.2) (sortDesc l) := by
  induction l with
  | nil => simp [sortDesc]
  | cons x rest ih => exact pairwise_insertDesc ih

theorem filter_insertDesc (x : List Char × Nat) (l : List (List Char × Nat)) (c : Nat) :
    (insertDesc x l).filter (fun p => p.2 == c)
      = if x.2 = c then x :: l.filter (fun p => p.2 == c)
        else l.filter (fun p => p.2 == c) := by
  induction l with
  | nil => by_cases hx : x.2 = c <;> simp [insertDesc, hx]
  | cons z rest ih =>
    by_cases hz : z.2 ≤ x.2
    · rw [insertDesc, if_pos hz]
      by_cases hx : x.2 = c <;> simp [List.filter_cons, hx]
    · rw [insertDesc, if_neg hz]
      by_cases hzc : z.2 = c
      · have hx : ¬ x.2 = c := by omega
        simp [List.filter_cons, hzc, hx, ih]
      · by_cases hx : x.2 = c <;> simp [List.filter_cons, hzc, hx, ih]

theorem filter_sortDesc (l : List (List Char × Nat)) (c : Nat) :
    (sortDesc l).filter (fun p => p.2 == c) = l.filter (fun p => p.2 == c) := by
  induction l with
  | nil => rfl
  | cons x rest ih =>
    show (insertDesc x (sortDesc rest)).filter _ = _
    rw [filter_insertDesc]
    by_cases hx : x.2 = c <;> simp [List.filter_cons, hx, ih]

/-- **C3**: for a non-empty corpus, `top_100_words` has at most 100 entries,
its counts are non-increasing, every entry's `frequency` is
`round(count / total_words, 6)`, and ties are broken by first-seen order: for
each count value `c`, the entries of count `c` form a subsequence (in order)
of `countsFirstSeen all_words`, whose order is the order of first occurrence
during accumulation. -/
theorem c3_top100_words (st : AggState) (h : st.all_words ≠ []) :
    (buildReport st).top_100_words.length ≤ 100 ∧
    List.Pairwise (fun a b => b.count ≤ a.count) (buildReport st).top_100_words ∧
    (∀ e ∈ (buildReport st).top_100_words,
        e.frequency = pyRound 6 ((e.count : ℚ) / (st.all_words.length : ℚ))) ∧
    (∀ c : Nat,
        List.Sublist
          (((buildReport st).top_100_words.map (fun e => (e.word, e.count))).filter
            (fun p => p.2 == c))
          ((countsFirstSeen st.all_words).filter (fun p => p.2 == c))) := by
  have hz : ¬ st.all_words.length = 0 := by simpa [List.length_eq_zero] using h
  have htop : (buildReport st).top_100_words
      = (mostCommon 100 st.all_words).map
        (fun p => { word := p.1, count := p.2,
                    frequency := pyRound 6 ((p.2 : ℚ) / (st.all_words.length : ℚ)) : WordEntry }) := by
    simp [buildReport, hz]
  refine ⟨?_, ?_, ?_, ?_⟩
  · rw [htop]
    simp only [List.length_map, mostCommon, List.length_take]
    omega
  · rw [htop]
    refine List.pairwise_map.mpr ?_
    exact (pairwise_sortDesc (countsFirstSeen st.all_words)).sublist
      (List.take_sublist 100 _)
  · rw [htop]
    intro e he
    rcases List.mem_map.mp he with ⟨p, _, rfl⟩
    rfl
  · intro c
    rw [htop, List.map_map]
    have hcomp : ((fun e : WordEntry => (e.word, e.count)) ∘
        (fun p : List Char × Nat =>
          ({ word := p.1, count := p.2,
             frequency := pyRound 6 ((p.2 : ℚ) / (st.all_words.length : ℚ)) } : WordEntry)))
        = id := by
      funext p
      rfl
    rw [hcomp, List.map_id, mostCommon]
    have h1 := (List.take_sublist 100 (sortDesc (countsFirstSeen st.all_words))).filter
      (fun p => p.2 == c)
    rwa [filter_sortDesc] at h1

/-- **C3** (witness): the statement at a concrete corpus with a count tie
(`b` and `a` both occur twice, `b` first). -/
theorem c3_top100_words_witness :
    (buildReport (accumulate initAgg (cs "a.json") (cs "b b a a c"))).top_100_words.length ≤ 100 ∧
    List.Pairwise (fun a b => b.count ≤ a.count)
      (buildReport (accumulate initAgg (cs "a.json") (cs "b b a a c"))).top_100_words ∧
    (∀ e ∈ (buildReport (accumulate initAgg (cs "a.json") (cs "b b a a c"))).top_100_words,
        e.frequency = pyRound 6 ((e.count : ℚ)
          / ((accumulate initAgg (cs "a.json") (cs "b b a a c")).all_words.length : ℚ))) ∧
    (∀ c : Nat,
        List.Sublist
          (((buildReport (accumulate initAgg (cs "a.json") (cs "b b a a c"))).top_100_words.map
            (fun e => (e.word, e.count))).filter (fun p => p.2 == c))
          ((countsFirstSeen
              (accumulate initAgg (cs "a.json") (cs "b b a a c")).all_words).filter
            (fun p => p.2 == c))) :=
  c3_top100_words _ (by decide)

/-! ## C8: the extraction completion marker -/

theorem driverFold_spec (files : List (List Char × Bool)) :
    ∀ succ failed outs,
    driverFold (succ, failed, outs) files
      = (succ + (files.filter (fun f => f.2)).length,
         failed + (files.filter (fun f => !f.2)).length,
         outs ++ (files.filter (fun f => f.2)).map (fun f => outName f.1)) := by
  induction files with
  | nil => intro succ failed outs; simp [driverFold]
  | cons x rest ih =>
    intro succ failed outs
    match x with
    | (name, true) =>
      simp only [driverFold, if_pos, List.filter_cons, ih]
      simp [List.append_assoc]
      omega
    | (name, false) =>
      simp only [driverFold, List.filter_cons, ih]
      simp
      omega

theorem filter_bool_length (files : List (List Char × Bool)) :
    (files.filter (fun f => f.2)).length + (files.filter (fun f => !f.2)).length
      = files.length := by
  induction files with
  | nil => rfl
  | cons x rest ih => by_cases hx : x.2 <;> simp [List.filter_cons, hx] <;> omega

/-- **C8**: for a driver run over raw documents enumerated in lexicographic
filename order (as `sorted(glob(...))` yields), the completion marker
satisfies `inputs_detected = processed_success + processed_failed`, its
`outputs` list has exactly `processed_success` entries, and `outputs` is the
list of derived record names of the successful sources in input order — in
particular the successful source names remain in lexicographic order. -/
theorem c8_completion_marker (files : List (List Char × Bool))
    (hs : List.Pairwise (fun a b => lexLeB a.1 b.1 = true) files) :
    (driverRun files).inputs_detected
        = (driverRun files).processed_success + (driverRun files).processed_failed ∧
    (driverRun files).outputs.length = (driverRun files).processed_success ∧
    (driverRun files).outputs = (files.filter (fun f => f.2)).map (fun f => outName f.1) ∧
    List.Pairwise (fun a b => lexLeB a b = true)
      ((files.filter (fun f => f.2)).map (fun f => f.1)) := by
  have hd := driverFold_spec files 0 0 []
  have h1 : (driverRun files).inputs_detected = files.length := rfl
  have h2 : (driverRun files).processed_success = (driverFold (0, 0, []) files).1 := rfl
  have h3 : (driverRun files).processed_failed = (driverFold (0, 0, []) files).2.1 := rfl
  have h4 : (driverRun files).outputs = (driverFold (0, 0, []) files).2.2 := rfl
  refine ⟨?_, ?_, ?_, ?_⟩
  · rw [h1, h2, h3, hd]
    simpa using (filter_bool_length files).symm
  · rw [h4, h2, hd]
    simp
  · rw [h4, hd]
    simp
  · exact List.pairwise_map.mpr (hs.filter (fun f => f.2))

/-- **C8** (witness): the marker invariants at a concrete sorted batch with
one failure. -/
theorem c8_completion_marker_witness :
    (driverRun [(cs "a.html", true), (cs "b.html", false), (cs "c.html", true)]).inputs_detected
        = (driverRun [(cs "a.html", true), (cs "b.html", false),
            (cs "c.html", true)]).processed_success
          + (driverRun [(cs "a.html", true), (cs "b.html", false),
              (cs "c.html", true)]).processed_failed ∧
    (driverRun [(cs "a.html", true), (cs "b.html", false),
        (cs "c.html", true)]).outputs.length
      = (driverRun [(cs "a.html", true), (cs "b.html", false),
          (cs "c.html", true)]).processed_success ∧
    (driverRun [(cs "a.html", true), (cs "b.html", false), (cs "c.html", true)]).outputs
      = ([(cs "a.html", true), (cs "b.html", false), (cs "c.html", true)].filter
          (fun f => f.2)).map (fun f => outName f.1) ∧
    List.Pairwise (fun a b => lexLeB a b = true)
      (([(cs "a.html", true), (cs "b.html", false), (cs "c.html", true)].filter
          (fun f => f.2)).map (fun f => f.1)) :=
  c8_completion_marker _ (by decide)

/-! ## C2: machinery for the block-removal scanner -/

theorem ciCharEq_self (c : Char) : ciCharEq c c = true := by simp [ciCharEq]

theorem ciCharEq_lt_false {c : Char} (h : c ≠ '<') : ciCharEq '<' c = false := by
  have ha : ('<').isAlpha = false := by decide
  simp [ciCharEq, ha, Ne.symm h]

theorem stripPrefixCI_self (p r : List Char) : stripPrefixCI p (p ++ r) = some r := by
  induction p with
  | nil => rfl
  | cons c ps ih => simp [stripPrefixCI, ciCharEq_self, ih]

theorem stripPrefixCI_length {p s t : List Char} (h : stripPrefixCI p s = some t) :
    s.length = p.length + t.length := by
  induction p generalizing s with
  | nil =>
    cases h
    simp
  | cons c ps ih =>
    match s with
    | [] => cases h
    | d :: rest =>
      rw [stripPrefixCI] at h
      by_cases hc : ciCharEq c d
      · rw [if_pos hc] at h
        have := ih h
        simp only [List.length_cons, this]
        omega
      · rw [if_neg hc] at h
        cases h

theorem skipToGt_length {s t : List Char} (h : skipToGt s = some t) :
    t.length < s.length := by
  induction s with
  | nil => cases h
  | cons c rest ih =>
    rw [skipToGt] at h
    by_cases hc : c = '>'
    · rw [if_pos hc] at h
      cases h
      simp
    · rw [if_neg hc] at h
      have := ih h
      simp only [List.length_cons]
      omega

theorem findCloseCI_length {pat s t : List Char} (h : findCloseCI pat s = some t) :
    t.length ≤ s.length := by
  induction s with
  | nil => cases h
  | cons c rest ih =>
    rw [findCloseCI] at h
    cases hs : stripPrefixCI pat (c :: rest) with
    | some r =>
      simp only [hs] at h
      cases h
      have := stripPrefixCI_length hs
      omega
    | none =>
      simp only [hs] at h
      have := ih h
      simp only [List.length_cons]
      omega

theorem matchBlockAt_nil (tag : List Char) : matchBlockAt tag [] = none := rfl

theorem matchBlockAt_length {tag s rem : List Char} (h : matchBlockAt tag s = some rem) :
    rem.length < s.length := by
  unfold matchBlockAt at h
  cases h1 : stripPrefixCI ('<' :: tag) s with
  | none => simp only [h1] at h; cases h
  | some a =>
    simp only [h1] at h
    cases h2 : skipToGt a with
    | none => simp only [h2] at h; cases h
    | some b =>
      simp only [h2] at h
      have l1 := stripPrefixCI_length h1
      have l2 := skipToGt_length h2
      have l3 := findCloseCI_length h
      simp only [List.length_cons] at l1
      omega

theorem removeBlocksF_irrel (tag : List Char) :
    ∀ f g s, s.length ≤ f → s.length ≤ g → removeBlocksF tag f s = removeBlocksF tag g s := by
  intro f
  induction f with
  | zero =>
    intro g s hf _
    have : s = [] := List.length_eq_zero.mp (Nat.le_zero.mp hf)
    subst this
    cases g <;> rfl
  | succ f ih =>
    intro g s hf hg
    match s with
    | [] => cases g <;> rfl
    | c :: rest =>
      match g with
      | 0 => exact absurd hg (by simp)
      | g + 1 =>
        simp only [removeBlocksF]
        cases hm : matchBlockAt tag (c :: rest) with
        | some rem =>
          have hl := matchBlockAt_length hm
          simp only [List.length_cons] at hl hf hg
          exact ih g rem (by omega) (by omega)
        | none =>
          simp only [List.length_cons] at hf hg
          rw [ih g rest (by omega) (by omega)]

theorem removeBlocks_cons_noMatch {tag : List Char} {c : Char} {s : List Char}
    (h : matchBlockAt tag (c :: s) = none) :
    removeBlocks tag (c :: s) = c :: removeBlocks tag s := by
  unfold removeBlocks
  simp only [List.length_cons, removeBlocksF, h]

theorem removeBlocks_match {tag s rem : List Char} (h : matchBlockAt tag s = some rem) :
    removeBlocks tag s = removeBlocks tag rem := by
  match s with
  | [] => rw [matchBlockAt_nil] at h; cases h
  | c :: rest =>
    unfold removeBlocks
    simp only [List.length_cons, removeBlocksF, h]
    have := matchBlockAt_length h
    simp only [List.length_cons] at this
    exact removeBlocksF_irrel tag rest.length rem.length rem (by omega) (by omega)

theorem removeBlocks_nil (tag : List Char) : removeBlocks tag [] = [] := rfl

theorem removeBlocks_prepend {tag x : List Char}
    (hx : ∀ i, i < x.length → ∀ s, stripPrefixCI ('<' :: tag) (x.drop i ++ s) = none)
    (s : List Char) :
    removeBlocks tag (x ++ s) = x ++ removeBlocks tag s := by
  induction x with
  | nil => simp
  | cons c rest ih =>
    have h0 : matchBlockAt tag (c :: (rest ++ s)) = none := by
      unfold matchBlockAt
      have := hx 0 (by simp) s
      simp only [List.drop_zero, List.cons_append] at this
      simp only [this]
    rw [List.cons_append, removeBlocks_cons_noMatch h0,
      ih (fun i hi s' => by
        have := hx (i + 1) (by simp; omega) s'
        simpa using this)]
    rfl

theorem findCloseCI_boundary {q v w : List Char} (hv : '<' ∉ v) :
    findCloseCI ('<' :: q) (v ++ ('<' :: q) ++ w) = some w := by
  induction v with
  | nil =>
    have : ([] : List Char) ++ ('<' :: q) ++ w = '<' :: (q ++ w) := by simp
    rw [this, findCloseCI]
    have hs : stripPrefixCI ('<' :: q) ('<' :: (q ++ w)) = some w := by
      have := stripPrefixCI_self ('<' :: q) w
      simpa using this
    simp only [hs]
  | cons c vr ih =>
    have hc : c ≠ '<' := fun heq => hv (heq ▸ List.mem_cons_self c vr)
    have : (c :: vr) ++ ('<' :: q) ++ w = c :: (vr ++ ('<' :: q) ++ w) := by simp
    rw [this, findCloseCI]
    have hs : stripPrefixCI ('<' :: q) (c :: (vr ++ ('<' :: q) ++ w)) = none := by
      simp [stripPrefixCI, ciCharEq_lt_false hc]
    simp only [hs]
    exact ih (fun hm => hv (List.mem_cons_of_mem _ hm))

theorem matchBlockAt_boundary {tag v w : List Char} (hv : '<' ∉ v) :
    matchBlockAt tag (openTag tag ++ v ++ closeTag tag ++ w) = some w := by
  unfold matchBlockAt
  have h1 : openTag tag ++ v ++ closeTag tag ++ w
      = ('<' :: tag) ++ ('>' :: (v ++ ('<' :: ('/' :: tag ++ ['>'])) ++ w)) := by
    simp [openTag, closeTag]
  rw [h1, stripPrefixCI_self]
  have h2 : skipToGt ('>' :: (v ++ ('<' :: ('/' :: tag ++ ['>'])) ++ w))
      = some (v ++ ('<' :: ('/' :: tag ++ ['>'])) ++ w) := rfl
  simp only [h2]
  have h3 := findCloseCI_boundary (q := '/' :: tag ++ ['>']) (w := w) hv
  have h4 : ('<' :: '/' :: (tag ++ ['>'])) = ('<' :: ('/' :: tag ++ ['>'])) := by simp
  rw [h4]
  exact h3

theorem spci_cons_false {p c : Char} {ps s : List Char} (h : ciCharEq p c = false) :
    stripPrefixCI (p :: ps) (c :: s) = none := by simp [stripPrefixCI, h]

theorem spci_append_none {p a : List Char} (hlen : p.length ≤ a.length)
    (h : stripPrefixCI p a = none) : ∀ s, stripPrefixCI p (a ++ s) = none := by
  induction p generalizing a with
  | nil => cases h
  | cons pc ps ih =>
    match a with
    | [] => simp at hlen
    | c :: rest =>
      intro s
      rw [stripPrefixCI] at h
      rw [List.cons_append, stripPrefixCI]
      by_cases hc : ciCharEq pc c
      · rw [if_pos hc] at h ⊢
        simp only [List.length_cons] at hlen
        exact ih (by omega) h s
      · rw [if_neg hc]

theorem noTagStart_of_not_mem {tag x : List Char} (hx : '<' ∉ x) :
    ∀ i, i < x.length → ∀ s, stripPrefixCI ('<' :: tag) (x.drop i ++ s) = none := by
  intro i hi s
  cases hd : x.drop i with
  | nil =>
    exfalso
    rw [List.drop_eq_nil_iff] at hd
    omega
  | cons c t =>
    have hc : c ∈ x := List.mem_of_mem_drop (by rw [hd]; exact List.mem_cons_self c t)
    have hne : c ≠ '<' := fun heq => hx (heq ▸ hc)
    exact spci_cons_false (ciCharEq_lt_false hne)

theorem noTagStart_append {tag x y : List Char}
    (hx : ∀ i, i < x.length → ∀ s, stripPrefixCI ('<' :: tag) (x.drop i ++ s) = none)
    (hy : ∀ i, i < y.length → ∀ s, stripPrefixCI ('<' :: tag) (y.drop i ++ s) = none) :
    ∀ i, i < (x ++ y).length → ∀ s,
      stripPrefixCI ('<' :: tag) ((x ++ y).drop i ++ s) = none := by
  intro i hi s
  rw [List.drop_append_eq_append_drop]
  by_cases hix : i < x.length
  · have h0 : i - x.length = 0 := by omega
    rw [h0, List.drop_zero, List.append_assoc]
    exact hx i hix (y ++ s)
  · have hxl : x.drop i = [] := by
      rw [List.drop_eq_nil_iff]
      omega
    rw [hxl, List.nil_append]
    have hyl : i - x.length < y.length := by
      simp only [List.length_append] at hi
      omega
    exact hy (i - x.length) hyl s

theorem noTagStart_script_openStyle :
    ∀ i, i < (openTag styleTag).length → ∀ s,
      stripPrefixCI ('<' :: scriptTag) ((openTag styleTag).drop i ++ s) = none := by
  intro i hi s
  match i, hi with
  | 0, _ => exact spci_append_none (by decide) (by decide) s
  | 1, _ => exact spci_cons_false (by decide)
  | 2, _ => exact spci_cons_false (by decide)
  | 3, _ => exact spci_cons_false (by decide)
  | 4, _ => exact spci_cons_false (by decide)
  | 5, _ => exact spci_cons_false (by decide)
  | 6, _ => exact spci_cons_false (by decide)
  | n + 7, hh => exact absurd hh (by simp [openTag, styleTag])

theorem noTagStart_script_closeStyle :
    ∀ i, i < (closeTag styleTag).length → ∀ s,
      stripPrefixCI ('<' :: scriptTag) ((closeTag styleTag).drop i ++ s) = none := by
  intro i hi s
  match i, hi with
  | 0, _ => exact spci_append_none (by decide) (by decide) s
  | 1, _ => exact spci_cons_false (by decide)
  | 2, _ => exact spci_cons_false (by decide)
  | 3, _ => exact spci_cons_false (by decide)
  | 4, _ => exact spci_cons_false (by decide)
  | 5, _ => exact spci_cons_false (by decide)
  | 6, _ => exact spci_cons_false (by decide)
  | 7, _ => exact spci_cons_false (by decide)
  | n + 8, hh => exact absurd hh (by simp [closeTag, styleTag])

theorem removeBlocks_elide {tag u v w : List Char} (hu : '<' ∉ u) (hv : '<' ∉ v) :
    removeBlocks tag (u ++ (openTag tag ++ (v ++ (closeTag tag ++ w))))
      = u ++ removeBlocks tag w := by
  rw [removeBlocks_prepend (noTagStart_of_not_mem hu)]
  congr 1
  have hshape : openTag tag ++ (v ++ (closeTag tag ++ w))
      = openTag tag ++ v ++ closeTag tag ++ w := by simp [List.append_assoc]
  rw [hshape, removeBlocks_match (matchBlockAt_boundary hv)]

theorem strip_html_congr {a b : List Char}
    (h : removeBlocks styleTag (removeBlocks scriptTag a)
       = removeBlocks styleTag (removeBlocks scriptTag b)) :
    strip_html a = strip_html b := by
  show (pystrip (collapseWs (tagSub (removeBlocks styleTag (removeBlocks scriptTag a)))),
        findAttrVals (cs "href=") (removeBlocks styleTag (removeBlocks scriptTag a)),
        findAttrVals (cs "src=") (removeBlocks styleTag (removeBlocks scriptTag a)))
      = (pystrip (collapseWs (tagSub (removeBlocks styleTag (removeBlocks scriptTag b)))),
         findAttrVals (cs "href=") (removeBlocks styleTag (removeBlocks scriptTag b)),
         findAttrVals (cs "src=") (removeBlocks styleTag (removeBlocks scriptTag b)))
  rw [h]

theorem splitAtGt_length {l a b : List Char} (h : splitAtGt l = some (a, b)) :
    l.length = a.length + 1 + b.length := by
  induction l generalizing a b with
  | nil => cases h
  | cons c rest ih =>
    rw [splitAtGt] at h
    by_cases hc : c = '>'
    · rw [if_pos hc] at h
      cases h
      simp only [List.length_cons, List.length_nil]
      omega
    · rw [if_neg hc] at h
      cases hr : splitAtGt rest with
      | none => rw [hr] at h; cases h
      | some p =>
        rw [hr] at h
        simp only [Option.map_some'] at h
        cases h
        have := ih (a := p.1) (b := p.2) (by rw [hr])
        simp only [List.length_cons]
        omega

theorem tagSubF_irrel :
    ∀ f g s, s.length ≤ f → s.length ≤ g → tagSubF f s = tagSubF g s := by
  intro f
  induction f with
  | zero =>
    intro g s hf _
    have : s = [] := List.length_eq_zero.mp (Nat.le_zero.mp hf)
    subst this
    cases g <;> rfl
  | succ f ih =>
    intro g s hf hg
    match s with
    | [] => cases g <;> rfl
    | c :: rest =>
      match g with
      | 0 => exact absurd hg (by simp)
      | g + 1 =>
        simp only [tagSubF]
        simp only [List.length_cons] at hf hg
        by_cases hc : c = '<'
        · rw [if_pos hc, if_pos hc]
          cases hsp : splitAtGt rest with
          | none =>
            simp only [hsp]
            rw [ih g rest (by omega) (by omega)]
          | some p =>
            obtain ⟨inner, after⟩ := p
            have hlen := splitAtGt_length hsp
            simp only [hsp]
            by_cases hin : inner.isEmpty
            · simp only [hin, if_true]
              rw [ih g rest (by omega) (by omega)]
            · simp only [hin, Bool.false_eq_true, if_false]
              rw [ih g after (by omega) (by omega)]
        · rw [if_neg hc, if_neg hc, ih g rest (by omega) (by omega)]

theorem tagSub_nil : tagSub [] = [] := rfl

theorem tagSub_cons_ne {c : Char} {s : List Char} (h : c ≠ '<') :
    tagSub (c :: s) = c :: tagSub s := by
  unfold tagSub
  simp only [List.length_cons, tagSubF, if_neg h]

theorem tagSub_prepend {t : List Char} (ht : '<' ∉ t) (s : List Char) :
    tagSub (t ++ s) = t ++ tagSub s := by
  induction t with
  | nil => simp
  | cons c rest ih =>
    have hc : c ≠ '<' := fun he => ht (he ▸ List.mem_cons_self c rest)
    rw [List.cons_append, tagSub_cons_ne hc,
      ih (fun hm => ht (List.mem_cons_of_mem _ hm)), List.cons_append]

theorem splitAtGt_append {a b : List Char} (h : '>' ∉ a) :
    splitAtGt (a ++ '>' :: b) = some (a, b) := by
  induction a with
  | nil => simp [splitAtGt]
  | cons c rest ih =>
    have hc : c ≠ '>' := fun he => h (he ▸ List.mem_cons_self c rest)
    rw [List.cons_append, splitAtGt, if_neg hc,
      ih (fun hm => h (List.mem_cons_of_mem _ hm))]
    rfl

theorem tagSub_tag {inner s : List Char} (h0 : inner ≠ []) (h1 : '>' ∉ inner) :
    tagSub ('<' :: inner ++ '>' :: s) = ' ' :: tagSub s := by
  have hst : tagSub ('<' :: inner ++ '>' :: s)
      = tagSubF ((inner ++ '>' :: s).length + 1) ('<' :: (inner ++ '>' :: s)) := by
    unfold tagSub
    simp
  rw [hst]
  simp only [tagSubF, if_pos rfl, splitAtGt_append h1]
  have hie : inner.isEmpty = false := by
    cases inner with
    | nil => exact absurd rfl h0
    | cons a t => rfl
  simp only [hie, Bool.false_eq_true, if_false, if_true]
  congr 1
  apply tagSubF_irrel
  · simp only [List.length_append, List.length_cons]
    omega
  · exact le_refl _

theorem mem_collapseWsAux {c : Char} (hc : c ≠ ' ') :
    ∀ (b : Bool) (s : List Char), c ∉ s → c ∉ collapseWsAux b s := by
  intro b s
  induction s generalizing b with
  | nil =>
    intro _
    simp [collapseWsAux]
  | cons d rest ih =>
    intro hmem
    have hd : c ≠ d := fun he => hmem (he ▸ List.mem_cons_self d rest)
    have hrest : c ∉ rest := fun hm => hmem (List.mem_cons_of_mem _ hm)
    by_cases hsp : isSpaceB d
    · cases b
      · simp only [collapseWsAux, hsp, if_true]
        intro hm
        rcases List.mem_cons.mp hm with he | hm
        · exact hc he
        · exact ih true hrest hm
      · simp only [collapseWsAux, hsp, if_true]
        exact ih true hrest
    · simp only [collapseWsAux, hsp, Bool.false_eq_true, if_false]
      intro hm
      rcases List.mem_cons.mp hm with he | hm
      · exact hd he
      · exact ih false hrest hm

theorem mem_pystrip {c : Char} {s : List Char} (h : c ∉ s) : c ∉ pystrip s := by
  intro hm
  unfold pystrip at hm
  rw [List.mem_reverse] at hm
  have h1 := (List.dropWhile_sublist (l := (s.dropWhile isSpaceB).reverse)
    (p := isSpaceB)).subset hm
  rw [List.mem_reverse] at h1
  exact h ((List.dropWhile_sublist (l := s) (p := isSpaceB)).subset h1)

theorem tagSub_pieces {pieces : List (List Char)}
    (h : ∀ p ∈ pieces, ('<' ∉ p ∧ '>' ∉ p) ∨
        ∃ inner, inner ≠ [] ∧ '>' ∉ inner ∧ p = '<' :: inner ++ ['>']) :
    '<' ∉ tagSub pieces.flatten ∧ '>' ∉ tagSub pieces.flatten := by
  induction pieces with
  | nil => simp [tagSub_nil]
  | cons p rest ih =>
    have hrest := ih (fun q hq => h q (List.mem_cons_of_mem _ hq))
    rcases h p (List.mem_cons_self _ _) with ⟨hl, hg⟩ | ⟨inner, hne, hgi, rfl⟩
    · rw [List.flatten_cons, tagSub_prepend hl]
      constructor <;> intro hm <;> rcases List.mem_append.mp hm with hm | hm
      · exact hl hm
      · exact hrest.1 hm
      · exact hg hm
      · exact hrest.2 hm
    · rw [List.flatten_cons]
      have hsh : ('<' :: inner ++ ['>']) ++ rest.flatten
          = '<' :: inner ++ '>' :: rest.flatten := by simp
      rw [hsh, tagSub_tag hne hgi]
      constructor <;> intro hm <;> rcases List.mem_cons.mp hm with he | hm
      · exact absurd he (by decide)
      · exact hrest.1 hm
      · exact absurd he (by decide)
      · exact hrest.2 hm

/-- **C2** (counterexample): for the input `"<script>hidden</p> ok"` the
`<script>` block is never terminated, so the removal regex
`<script[^>]*>.*?</script>` does not match; only the bare tags are stripped
and the script body `hidden` survives into the extracted text — contradicting
the claim that script content (including unterminated blocks) never appears. -/
theorem c2_counterexample :
    (strip_html (cs "<script>hidden</p> ok")).1 = cs "hidden ok" ∧
    List.Sublist (cs "hidden") (strip_html (cs "<script>hidden</p> ok")).1 := by decide

/-- **C2** (amended): a *terminated* `<script>...</script>` or
`<style>...</style>` block is removed whole — for any surrounding context
`u`/`w` and body `v` that contain no `'<'`, the extractor's entire output
(text, links and images) on `u ++ <script> ++ v ++ </script> ++ w` equals its
output on `u ++ w`; the content of an unterminated block, by contrast, is
merely tag-stripped and can appear (counterexample).  Moreover, for inputs
that are concatenations of bracket-free text pieces and complete tags
`<...>` (and on which the block-removal passes act as identity), the
extracted text contains no `'<'` or `'>'` at all. -/
theorem c2_block_removal_amended (u v w : List Char) (hu : '<' ∉ u) (hv : '<' ∉ v) :
    strip_html (u ++ cs "<script>" ++ v ++ cs "</script>" ++ w) = strip_html (u ++ w) ∧
    strip_html (u ++ cs "<style>" ++ v ++ cs "</style>" ++ w) = strip_html (u ++ w) ∧
    (∀ pieces : List (List Char),
      (∀ p ∈ pieces, ('<' ∉ p ∧ '>' ∉ p) ∨
          ∃ inner, inner ≠ [] ∧ '>' ∉ inner ∧ p = '<' :: inner ++ ['>']) →
      removeBlocks scriptTag pieces.flatten = pieces.flatten →
      removeBlocks styleTag pieces.flatten = pieces.flatten →
      '<' ∉ (strip_html pieces.flatten).1 ∧ '>' ∉ (strip_html pieces.flatten).1) := by
  refine ⟨?_, ?_, ?_⟩
  · have e0 : cs "<script>" = openTag scriptTag := by decide
    have e1 : cs "</script>" = closeTag scriptTag := by decide
    rw [e0, e1]
    have hs : removeBlocks scriptTag (u ++ openTag scriptTag ++ v ++ closeTag scriptTag ++ w)
        = removeBlocks scriptTag (u ++ w) := by
      have hsh : u ++ openTag scriptTag ++ v ++ closeTag scriptTag ++ w
          = u ++ (openTag scriptTag ++ (v ++ (closeTag scriptTag ++ w))) := by
        simp [List.append_assoc]
      rw [hsh, removeBlocks_elide hu hv, removeBlocks_prepend (noTagStart_of_not_mem hu)]
    exact strip_html_congr (by rw [hs])
  · have e0 : cs "<style>" = openTag styleTag := by decide
    have e1 : cs "</style>" = closeTag styleTag := by decide
    rw [e0, e1]
    have hx : ∀ i, i < (u ++ (openTag styleTag ++ (v ++ closeTag styleTag))).length → ∀ s,
        stripPrefixCI ('<' :: scriptTag)
          ((u ++ (openTag styleTag ++ (v ++ closeTag styleTag))).drop i ++ s) = none :=
      noTagStart_append (noTagStart_of_not_mem hu)
        (noTagStart_append noTagStart_script_openStyle
          (noTagStart_append (noTagStart_of_not_mem hv) noTagStart_script_closeStyle))
    have hpass : removeBlocks scriptTag (u ++ openTag styleTag ++ v ++ closeTag styleTag ++ w)
        = u ++ (openTag styleTag ++ (v ++ (closeTag styleTag ++ removeBlocks scriptTag w))) := by
      have hsh : u ++ openTag styleTag ++ v ++ closeTag styleTag ++ w
          = (u ++ (openTag styleTag ++ (v ++ closeTag styleTag))) ++ w := by
        simp [List.append_assoc]
      rw [hsh, removeBlocks_prepend hx]
      simp [List.append_assoc]
    have hL : removeBlocks styleTag (removeBlocks scriptTag
          (u ++ openTag styleTag ++ v ++ closeTag styleTag ++ w))
        = u ++ removeBlocks styleTag (removeBlocks scriptTag w) := by
      rw [hpass, removeBlocks_elide hu hv]
    have hR : removeBlocks styleTag (removeBlocks scriptTag (u ++ w))
        = u ++ removeBlocks styleTag (removeBlocks scriptTag w) := by
      rw [removeBlocks_prepend (noTagStart_of_not_mem hu),
        removeBlocks_prepend (noTagStart_of_not_mem hu)]
    exact strip_html_congr (by rw [hL, hR])
  · intro pieces hp h1 h2
    have htext : (strip_html pieces.flatten).1
        = pystrip (collapseWs (tagSub pieces.flatten)) := by
      show pystrip (collapseWs (tagSub (removeBlocks styleTag (removeBlocks scriptTag
        pieces.flatten)))) = _
      rw [h1, h2]
    have hts := tagSub_pieces hp
    rw [htext]
    constructor
    · exact mem_pystrip (mem_collapseWsAux (by decide) false _ hts.1)
    · exact mem_pystrip (mem_collapseWsAux (by decide) false _ hts.2)

/-- **C2** (witness): the amended statement at concrete inputs. -/
theorem c2_block_removal_amended_witness :
    strip_html (cs "a " ++ cs "<script>" ++ cs "evil" ++ cs "</script>" ++ cs "b")
      = strip_html (cs "a " ++ cs "b") ∧
    strip_html (cs "a " ++ cs "<style>" ++ cs "evil" ++ cs "</style>" ++ cs "b")
      = strip_html (cs "a " ++ cs "b") ∧
    ('<' ∉ (strip_html ([cs "hello ", '<' :: cs "b" ++ ['>'], cs " world"].flatten)).1 ∧
     '>' ∉ (strip_html ([cs "hello ", '<' :: cs "b" ++ ['>'], cs " world"].flatten)).1) := by
  have h := c2_block_removal_amended (cs "a ") (cs "evil") (cs "b") (by decide) (by decide)
  refine ⟨h.1, h.2.1, ?_⟩
  refine h.2.2 [cs "hello ", '<' :: cs "b" ++ ['>'], cs " world"] ?_ (by decide) (by decide)
  intro p hp
  rcases List.mem_cons.mp hp with rfl | hp
  · exact Or.inl ⟨by decide, by decide⟩
  rcases List.mem_cons.mp hp with rfl | hp
  · exact Or.inr ⟨cs "b", by decide, by decide, rfl⟩
  rcases List.mem_cons.mp hp with rfl | hp
  · exact Or.inl ⟨by decide, by decide⟩
  · cases hp

/-! ## C9: paragraph count after whitespace collapsing -/

theorem collapseWsAux_spec (s : List Char) : ∀ b : Bool,
    List.Chain' noWsRun (collapseWsAux b s) ∧
    (b = true → ∀ hd, (collapseWsAux b s).head? = some hd → isSpaceB hd = false) := by
  induction s with
  | nil =>
    intro b
    refine ⟨by simp [collapseWsAux], ?_⟩
    intro _ hd h
    simp [collapseWsAux] at h
  | cons c rest ih =>
    intro b
    by_cases hc : isSpaceB c
    · cases b with
      | true =>
        have he : collapseWsAux true (c :: rest) = collapseWsAux true rest := by
          simp [collapseWsAux, hc]
        rw [he]
        exact ih true
      | false =>
        have he : collapseWsAux false (c :: rest) = ' ' :: collapseWsAux true rest := by
          simp [collapseWsAux, hc]
        rw [he]
        constructor
        · apply List.chain'_cons'.mpr
          refine ⟨?_, (ih true).1⟩
          intro y hy
          have hns := (ih true).2 rfl y hy
          intro hand
          rw [hns] at hand
          exact absurd hand.2 (by simp)
        · intro hb
          simp at hb
    · have he : collapseWsAux b (c :: rest) = c :: collapseWsAux false rest := by
        simp [collapseWsAux, hc]
      rw [he]
      constructor
      · apply List.chain'_cons'.mpr
        refine ⟨?_, (ih false).1⟩
        intro y _
        intro hand
        exact hc hand.1
      · intro _ hd hh
        simp only [List.head?_cons, Option.some.injEq] at hh
        subst hh
        simpa using hc

theorem chain'_dropWhile {R : Char → Char → Prop} {p : Char → Bool} {l : List Char}
    (h : List.Chain' R l) : List.Chain' R (l.dropWhile p) := by
  induction l with
  | nil => simp
  | cons c rest ih =>
    rw [List.dropWhile_cons]
    by_cases hc : p c
    · rw [if_pos hc]
      exact ih h.tail
    · rw [if_neg hc]
      exact h

theorem noWsRun_symm {a b : Char} (h : noWsRun a b) : noWsRun b a :=
  fun hc => h ⟨hc.2, hc.1⟩

theorem chain'_reverse_noWs {l : List Char} (h : List.Chain' noWsRun l) :
    List.Chain' noWsRun l.reverse := by
  rw [List.chain'_reverse]
  exact h.imp (fun _ _ hr => noWsRun_symm hr)

theorem chain'_pystrip {l : List Char} (h : List.Chain' noWsRun l) :
    List.Chain' noWsRun (pystrip l) := by
  unfold pystrip
  exact chain'_reverse_noWs (chain'_dropWhile (chain'_reverse_noWs (chain'_dropWhile h)))

theorem dropWhile_head_not {p : Char → Bool} {l : List Char} {c : Char} {r : List Char}
    (h : l.dropWhile p = c :: r) : p c = false := by
  induction l with
  | nil => cases h
  | cons d rest ih =>
    rw [List.dropWhile_cons] at h
    by_cases hd : p d
    · rw [if_pos hd] at h
      exact ih h
    · rw [if_neg hd] at h
      cases h
      simpa using hd

theorem getLast?_dropWhile {p : Char → Bool} {l : List Char}
    (h : l.dropWhile p ≠ []) : (l.dropWhile p).getLast? = l.getLast? := by
  induction l with
  | nil => simp at h
  | cons c rest ih =>
    rw [List.dropWhile_cons] at h ⊢
    by_cases hc : p c
    · rw [if_pos hc] at h ⊢
      rw [ih h]
      cases rest with
      | nil => simp at h
      | cons d t => rw [List.getLast?_cons_cons]
    · rw [if_neg hc]

theorem pystrip_head_not {s : List Char} {c : Char} {r : List Char}
    (h : pystrip s = c :: r) : isSpaceB c = false := by
  have h0 : (pystrip s).head? = some c := by rw [h]; rfl
  unfold pystrip at h0
  rw [List.head?_reverse] at h0
  have hne : ((s.dropWhile isSpaceB).reverse).dropWhile isSpaceB ≠ [] := by
    intro he
    unfold pystrip at h
    rw [he] at h
    simp at h
  rw [getLast?_dropWhile hne, List.getLast?_reverse] at h0
  cases hd : s.dropWhile isSpaceB with
  | nil => rw [hd] at h0; cases h0
  | cons d t =>
    rw [hd] at h0
    simp only [List.head?_cons, Option.some.injEq] at h0
    subst h0
    exact dropWhile_head_not hd

theorem pystrip_getLast_not {s : List Char} {c : Char}
    (h : (pystrip s).getLast? = some c) : isSpaceB c = false := by
  unfold pystrip at h
  rw [List.getLast?_reverse] at h
  cases hd : ((s.dropWhile isSpaceB).reverse).dropWhile isSpaceB with
  | nil => rw [hd] at h; cases h
  | cons d t =>
    rw [hd] at h
    simp only [List.head?_cons, Option.some.injEq] at h
    subst h
    exact dropWhile_head_not hd

theorem pystrip_eq_self {t : List Char}
    (hh : ∀ c r, t = c :: r → isSpaceB c = false)
    (hl : ∀ c, t.getLast? = some c → isSpaceB c = false) : pystrip t = t := by
  have h1 : t.dropWhile isSpaceB = t := by
    cases ht : t with
    | nil => rfl
    | cons c r =>
      rw [List.dropWhile_cons, hh c r ht]
      simp
  unfold pystrip
  rw [h1]
  have h2 : t.reverse.dropWhile isSpaceB = t.reverse := by
    cases hr : t.reverse with
    | nil => rfl
    | cons c r =>
      have hg : t.getLast? = some c := by
        rw [← List.head?_reverse, hr]
        rfl
      rw [List.dropWhile_cons, hl c hg]
      simp
  rw [h2, List.reverse_reverse]

theorem pGo_noRun (s : List Char) : ∀ (pend : Option Char) (acc : List Char),
    (match pend with
     | none => List.Chain' noWsRun s
     | some w => isSpaceB w = true ∧ List.Chain' noWsRun (w :: s)) →
    pGo pend false acc s
      = [acc.reverse ++ (match pend with | none => [] | some w => [w]) ++ s] := by
  induction s with
  | nil =>
    intro pend acc h
    cases pend with
    | none => simp [pGo]
    | some w => simp [pGo]
  | cons c rest ih =>
    intro pend acc h
    cases pend with
    | none =>
      by_cases hc : isSpaceB c
      · rw [show pGo none false acc (c :: rest) = pGo (some c) false acc rest from by
          simp [pGo, hc]]
        rw [ih (some c) acc ⟨hc, h⟩]
        simp
      · rw [show pGo none false acc (c :: rest) = pGo none false (c :: acc) rest from by
          simp [pGo, hc]]
        rw [ih none (c :: acc) h.tail]
        simp
    | some w =>
      obtain ⟨hw, hch⟩ := h
      by_cases hc : isSpaceB c
      · exfalso
        have hr := (List.chain'_cons.mp hch).1
        exact hr ⟨hw, hc⟩
      · rw [show pGo (some w) false acc (c :: rest) = pGo none false (c :: w :: acc) rest from by
          simp [pGo, hc]]
        rw [ih none (c :: w :: acc) hch.tail.tail]
        simp

theorem paraSegs_noRun {t : List Char} (h : List.Chain' noWsRun t) : paraSegs t = [t] := by
  have := pGo_noRun t none [] h
  simpa [paraSegs] using this

/-- **C9**: for every HTML input, the extracted text has had all whitespace
collapsed to single spaces and been stripped, so the paragraph split on runs
of 2+ whitespace can never produce more than one segment; when the text is
empty the fallback `max(1, sentence_count // 3)` applies with
`sentence_count = 0`.  Hence `paragraph_count` is exactly `1` — in
particular it is at least 1 always, and equals 1 whenever the text is
non-empty, as claimed. -/
theorem c9_paragraph_count (name html : List Char) :
    (process_one_html name html).statistics.paragraph_count = 1 := by
  have hrec : (process_one_html name html).statistics
      = text_statistics (strip_html html).1 := rfl
  rw [hrec]
  have htext : (strip_html html).1
      = pystrip (collapseWs (tagSub (removeBlocks styleTag
          (removeBlocks scriptTag html)))) := rfl
  rw [htext]
  have hcy : List.Chain' noWsRun (collapseWs (tagSub (removeBlocks styleTag
      (removeBlocks scriptTag html)))) := (collapseWsAux_spec _ false).1
  have hct := chain'_pystrip hcy
  cases hts : pystrip (collapseWs (tagSub (removeBlocks styleTag
      (removeBlocks scriptTag html)))) with
  | nil => decide
  | cons c r =>
    have hnd : List.Chain' noWsRun (c :: r) := hts ▸ hct
    have hps : paraSegs (c :: r) = [c :: r] := paraSegs_noRun hnd
    have hself : pystrip (c :: r) = c :: r := by
      apply pystrip_eq_self
      · intro c' r' he
        have : c' = c := by
          injection he.symm
        subst this
        exact pystrip_head_not hts
      · intro c' hg
        exact pystrip_getLast_not (s := collapseWs (tagSub (removeBlocks styleTag
          (removeBlocks scriptTag html)))) (by rw [hts]; exact hg)
    simp [text_statistics, hps, hself, List.filter_cons]
